import Mathlib

/-!
Verification of `moodle2polygon.py`, a one-file tool that migrates Moodle
CodeRunner quiz exports into Polygon problems.

The Python source is shallowly embedded below.  Pure string processing is
translated to executable Lean functions over `String` / `List Char`; the
effectful pieces (the HTTP client, the wall clock, the random nonce source
and the SHA-512 library routine) are made explicit parameters, following the
source's own design note that they are injectable dependencies.

Python string primitives (`str.strip`, `str.splitlines`, `str.lower`,
`str.split`, the `re` character class `\s` and `\d`) are modelled over the
character repertoire the tool actually manipulates: ASCII plus the Cyrillic
alphabet used by its localized markers.  Whitespace is the ASCII whitespace
set, digits are ASCII digits.
-/

/-- The ASCII whitespace characters recognised by Python's `str.strip`,
`str.split` and the regex class `\s` (restricted to ASCII). -/
def pyWhitespaceChar (c : Char) : Bool :=
  c = ' ' || c = '\t' || c = '\n' || c = '\r' || c = '\x0b' || c = '\x0c'

/-- Strip leading and trailing whitespace from a character list
(Python `str.strip()`). -/
def pyStripChars (l : List Char) : List Char :=
  ((l.dropWhile pyWhitespaceChar).reverse.dropWhile pyWhitespaceChar).reverse

/-- Python `str.strip()`. -/
def pyStrip (s : String) : String :=
  String.mk (pyStripChars s.data)

/-- Characters that terminate a line for Python `str.splitlines`. -/
def lineBoundary (c : Char) : Bool :=
  c = '\n' || c = '\r' || c = '\x0b' || c = '\x0c' || c = '\x1c' ||
  c = '\x1d' || c = '\x1e' || c = '\x85' || c = '\u2028' || c = '\u2029'

/-- Worker for `splitlines`: the Boolean records whether the previous
character was a carriage return (so a following line feed is part of the
same `\r\n` boundary), the accumulator holds the current line reversed. -/
def splitlinesAux : List Char → Bool → List Char → List (List Char)
  | [], _, acc => if acc.isEmpty then [] else [acc.reverse]
  | c :: cs, sawCR, acc =>
    if sawCR && c = '\n' then splitlinesAux cs false acc
    else if c = '\r' then acc.reverse :: splitlinesAux cs true []
    else if lineBoundary c then acc.reverse :: splitlinesAux cs false []
    else splitlinesAux cs false (c :: acc)

/-- Python `str.splitlines()`. -/
def pySplitlines (s : String) : List String :=
  (splitlinesAux s.data false []).map (fun l => String.mk l)

/-- Python `str.lower()` on the alphabets the tool manipulates: ASCII
letters and Russian Cyrillic letters (`А`–`Я` and `Ё`). -/
def lowerChar (c : Char) : Char :=
  if 'A' ≤ c && c ≤ 'Z' then Char.ofNat (c.toNat + 32)
  else if 0x410 ≤ c.toNat && c.toNat ≤ 0x42F then Char.ofNat (c.toNat + 0x20)
  else if c.toNat = 0x401 then Char.ofNat 0x451
  else c

/-- Python `str.lower()`. -/
def pyLowerStr (s : String) : String :=
  String.mk (s.data.map lowerChar)

/-- Python `sep.join(pieces)`. -/
def pyJoin (sep : String) : List String → String
  | [] => ""
  | [x] => x
  | x :: y :: xs => x ++ sep ++ pyJoin sep (y :: xs)

/-- Python truthiness fallback `text or default` for an optional string
(an absent text node and an empty string both select the default), as used
on `ElementTree` node text. -/
def pyOr (t : Option String) (d : String) : String :=
  match t with
  | none => d
  | some s => if s = "" then d else s

/-- Python `a or b` on two strings: the empty string is falsy. -/
def pyOrStr (a b : String) : String :=
  if a = "" then b else a

/-- Source: `_bool` (line 45): render a Boolean the way the Polygon API
expects it. -/
def _bool (value : Bool) : String :=
  if value then "true" else "false"

/-- The dynamically typed parameter values that the script ever places in
a request dictionary: Booleans, strings and integers. -/
inductive ParamValue where
  | pbool : Bool → ParamValue
  | pstr : String → ParamValue
  | pint : Int → ParamValue
deriving DecidableEq

/-- Source: `PolygonAPI._stringify_value` (lines 129–133): Booleans become
the literal words `true` / `false`, everything else its `str()` image. -/
def _stringify_value : ParamValue → String
  | ParamValue.pbool b => _bool b
  | ParamValue.pstr s => s
  | ParamValue.pint n => toString n

/-- The comparison key used at line 123, `key=lambda item: (item[0], item[1])`:
lexicographic order on (name, value) pairs, with Python's code-point order
on strings (which is exactly Lean's `String` order). -/
def pairLE (a b : String × String) : Bool :=
  decide (a.1 < b.1 ∨ (a.1 = b.1 ∧ a.2 ≤ b.2))

/-- Source: `sorted(params.items(), key=lambda item: (item[0], item[1]))`
(line 123). -/
def sortedItems (params : List (String × String)) : List (String × String) :=
  params.mergeSort pairLE

/-- Source: `"&".join(f"{key}={value}" ...)` over the sorted items
(line 124). -/
def queryString (params : List (String × String)) : String :=
  pyJoin "&" ((sortedItems params).map (fun p => p.1 ++ "=" ++ p.2))

/-- Source: `PolygonAPI._build_signature` (lines 121–127).  The SHA-512 hex
digest (the `hashlib` library call of line 126) and the random 6-character
nonce (`random.choices` of line 122) are effectful library calls, passed in
here as the explicit arguments `sha512hex` and `rand`. -/
def _build_signature (sha512hex : String → String) (apiSecret : String)
    (method : String) (params : List (String × String)) (rand : String) : String :=
  let query := queryString params
  let signatureBase := rand ++ "/" ++ method ++ "?" ++ query ++ "#" ++ apiSecret
  rand ++ sha512hex signatureBase

theorem pairLE_trans (a b c : String × String) :
    pairLE a b = true → pairLE b c = true → pairLE a c = true := by
  simp only [pairLE, decide_eq_true_eq]
  rintro (h1 | ⟨h1e, h1le⟩) (h2 | ⟨h2e, h2le⟩)
  · exact Or.inl (lt_trans h1 h2)
  · exact Or.inl (h2e ▸ h1)
  · exact Or.inl (h1e ▸ h2)
  · exact Or.inr ⟨h1e.trans h2e, le_trans h1le h2le⟩

theorem pairLE_total (a b : String × String) :
    (pairLE a b || pairLE b a) = true := by
  simp only [pairLE, Bool.or_eq_true, decide_eq_true_eq]
  rcases lt_trichotomy a.1 b.1 with h | h | h
  · exact Or.inl (Or.inl h)
  · rcases le_total a.2 b.2 with h2 | h2
    · exact Or.inl (Or.inr ⟨h, h2⟩)
    · exact Or.inr (Or.inr ⟨h.symm, h2⟩)
  · exact Or.inr (Or.inl h)

/-- C1: for every method name, parameter map (Booleans already rendered as
the words `true` / `false` by `_stringify_value`), nonce and secret, the
signature equals the nonce concatenated with the SHA-512 hex digest of
`nonce + "/" + method + "?" + sortedQuery + "#" + secret`, where
`sortedQuery` joins the `name=value` pairs with `&` after sorting them
lexicographically by (name, value); the signature parameter itself is never
among the sorted pairs because it is only inserted after signing.  The
result is a pure function of its inputs, hence deterministic. -/
theorem C1_build_signature (sha512hex : String → String)
    (apiSecret method rand : String) (params : List (String × String)) :
    _build_signature sha512hex apiSecret method params rand
      = rand ++ sha512hex (rand ++ "/" ++ method ++ "?" ++
          pyJoin "&" ((sortedItems params).map (fun p => p.1 ++ "=" ++ p.2))
          ++ "#" ++ apiSecret)
    ∧ (sortedItems params).Pairwise (fun a b => pairLE a b = true)
    ∧ (sortedItems params).Perm params
    ∧ _stringify_value (ParamValue.pbool true) = "true"
    ∧ _stringify_value (ParamValue.pbool false) = "false" := by
  refine ⟨rfl, ?_, List.mergeSort_perm _ _, rfl, rfl⟩
  exact List.sorted_mergeSort pairLE_trans pairLE_total params

/-- Source: the dataclass `TestCase` (lines 49–54). -/
structure TestCase where
  index : Nat
  input_data : String
  output_data : String
  use_in_statements : Bool
deriving DecidableEq

/-- One raw `<testcase>` element of the Moodle export, as the loop at lines
291–299 observes it: `find("stdin/text")` / `find("expected/text")` may
fail (outer `Option`), and a found node's text may be absent (inner
`Option`); `useasexample` is an optional attribute. -/
structure RawTestcase where
  stdin : Option (Option String)
  expected : Option (Option String)
  useasexample : Option String
deriving DecidableEq

/-- The skip condition of line 294, complemented: the entry is kept exactly
when both a stdin node and an expected node exist. -/
def testcaseKept (tc : RawTestcase) : Bool :=
  tc.stdin.isSome && tc.expected.isSome

/-- The loop body of lines 292–299 for one enumerated entry. -/
def extractOne (p : Nat × RawTestcase) : Option TestCase :=
  match p.2.stdin, p.2.expected with
  | some si, some eo =>
    some { index := p.1
         , input_data := pyOr si ""
         , output_data := pyOr eo ""
         , use_in_statements := p.2.useasexample.getD "0" == "1" }
  | _, _ => none

/-- Source: the test extraction loop of `parse_moodle_xml` (lines 290–299):
`enumerate(question.findall("testcases/testcase"), start=1)` numbers all raw
entries, and entries lacking a stdin or expected node are skipped by
`continue`. -/
def extractTests (testcases : List RawTestcase) : List TestCase :=
  (List.enumFrom 1 testcases).filterMap extractOne

/-- A raw test list whose first entry lacks its input payload. -/
def c2Testcases : List RawTestcase :=
  [ { stdin := none, expected := some (some "x"), useasexample := none }
  , { stdin := some (some "1 2"), expected := some (some "3"), useasexample := none } ]

theorem extractOne_isSome (p : Nat × RawTestcase) :
    (extractOne p).isSome = testcaseKept p.2 := by
  rcases p with ⟨n, tc⟩
  rcases tc with ⟨st, ex, ua⟩
  cases st <;> cases ex <;> rfl

theorem extractOne_index (p : Nat × RawTestcase) (t : TestCase) :
    extractOne p = some t → t.index = p.1 := by
  rcases p with ⟨n, tc⟩
  rcases tc with ⟨st, ex, ua⟩
  cases st <;> cases ex <;> intro h <;> simp [extractOne] at h
  rw [← h]

theorem extractTests_indices_aux (testcases : List RawTestcase) (n : Nat) :
    ((List.enumFrom n testcases).filterMap extractOne).map TestCase.index
      = ((List.enumFrom n testcases).filter (fun p => testcaseKept p.2)).map Prod.fst := by
  induction testcases generalizing n with
  | nil => rfl
  | cons tc tcs ih =>
    rw [List.enumFrom_cons]
    cases htc : testcaseKept tc
    · have hs : extractOne (n, tc) = none := by
        have h2 := extractOne_isSome (n, tc)
        rw [htc] at h2
        rcases ho : extractOne (n, tc) with _ | t
        · rfl
        · rw [ho] at h2; simp at h2
      rw [List.filterMap_cons_none hs, List.filter_cons_of_neg (by simpa using htc)]
      exact ih n.succ
    · have hs : (extractOne (n, tc)).isSome = true := by rw [extractOne_isSome]; exact htc
      obtain ⟨t, ht⟩ := Option.isSome_iff_exists.mp hs
      rw [List.filterMap_cons_some ht, List.filter_cons_of_pos (by simpa using htc)]
      simp only [List.map_cons]
      rw [extractOne_index (n, tc) t ht, ih]

theorem enumFrom_fst_lt (testcases : List RawTestcase) (n : Nat) :
    (List.enumFrom n testcases).Pairwise (fun p q => p.1 < q.1) := by
  induction testcases generalizing n with
  | nil => exact List.Pairwise.nil
  | cons tc tcs ih =>
    rw [List.enumFrom_cons]
    refine List.Pairwise.cons ?_ (ih (n + 1))
    rintro ⟨i, x⟩ hq
    have := (List.mem_enumFrom hq).1
    simpa using Nat.lt_of_succ_le this

/-- C2 is false as stated: with a first raw entry lacking its input payload
and a second complete entry, the only surviving TestCase has index 2, not a
contiguous index 1, because `enumerate(..., start=1)` numbers the skipped
entry too. -/
theorem C2_counterexample :
    (extractTests c2Testcases).map TestCase.index
      ≠ List.range' 1 (extractTests c2Testcases).length := by decide

/-- C2 (amended): an entry lacking either payload is silently omitted (the
extraction is a total function, so no error is possible), but the omitted
entry still consumes its index slot: each produced TestCase carries the
1-based position of its raw entry among all raw entries, in source order.
Indices are therefore strictly increasing and unique, but not necessarily
contiguous over the included entries. -/
theorem C2_amended_indices (testcases : List RawTestcase) :
    (extractTests testcases).map TestCase.index
      = ((List.enumFrom 1 testcases).filter (fun p => testcaseKept p.2)).map Prod.fst
    ∧ List.Chain' (· < ·) ((extractTests testcases).map TestCase.index) := by
  refine ⟨extractTests_indices_aux testcases 1, ?_⟩
  simp only [extractTests]
  rw [extractTests_indices_aux testcases 1]
  refine List.Pairwise.chain' ?_
  rw [List.pairwise_map]
  exact (enumFrom_fst_lt testcases 1).filter _

/-- The three buffers maintained by the line scanner of
`extract_text_sections`. -/
inductive TextSection where
  | legend
  | input
  | output
deriving DecidableEq

/-- Substring test on character lists (Python `"дан" in normalized`). -/
def containsSub (needle hay : List Char) : Bool :=
  hay.tails.any (fun t => needle.isPrefixOf t)

/-- The marker tests of lines 172–184, in source order: the lowered line
starts the input section when it begins with the Russian stem `вход` and
contains `дан` somewhere, or begins with the English word `input`; the
symmetric rule with `выход` / `output` starts the output section.  Returns
the section a marker line switches to, `none` for a content line. -/
def lineMarker (line : String) : Option TextSection :=
  let normalized := (pyLowerStr line).data
  if "вход".data.isPrefixOf normalized && containsSub "дан".data normalized then
    some TextSection.input
  else if "input".data.isPrefixOf normalized then some TextSection.input
  else if "выход".data.isPrefixOf normalized && containsSub "дан".data normalized then
    some TextSection.output
  else if "output".data.isPrefixOf normalized then some TextSection.output
  else none

/-- The scanning loop of lines 167–191: walk the lines keeping a current
section; marker lines switch the section and are consumed, content lines are
appended to the buffer of the current section. -/
def scanLines : List String → TextSection → List String × List String × List String
  | [], _ => ([], [], [])
  | line :: rest, current =>
    match lineMarker line with
    | some sec => scanLines rest sec
    | none =>
      let r := scanLines rest current
      match current with
      | TextSection.legend => (line :: r.1, r.2.1, r.2.2)
      | TextSection.input => (r.1, line :: r.2.1, r.2.2)
      | TextSection.output => (r.1, r.2.1, line :: r.2.2)

/-- Lines 164–165: split the text into lines, strip each, drop empties. -/
def textLines (text : String) : List String :=
  ((pySplitlines text).map pyStrip).filter (fun l => l != "")

/-- Source: `extract_text_sections` (lines 154–196), from the line split of
line 164 onward.  It is stated over the plain text produced by the upstream
markup normalization of lines 155–162 (tag stripping and HTML entity
decoding — regex and library calls that feed this scanner). -/
def extract_text_sections (text : String) : String × String × String :=
  let buffers := scanLines (textLines text) TextSection.legend
  ( pyJoin "\n\n" buffers.1
  , if buffers.2.1.isEmpty then "Входные данные отсутствуют" else pyJoin "\n" buffers.2.1
  , if buffers.2.2.isEmpty then "Выходные данные отсутствуют" else pyJoin "\n" buffers.2.2 )

/-- Prepend lines to the buffer selected by a section cursor. -/
def addToSection (cur : TextSection) (xs : List String)
    (b : List String × List String × List String) :
    List String × List String × List String :=
  match cur with
  | TextSection.legend => (xs ++ b.1, b.2.1, b.2.2)
  | TextSection.input => (b.1, xs ++ b.2.1, b.2.2)
  | TextSection.output => (b.1, b.2.1, xs ++ b.2.2)

theorem scanLines_append_nomarker (xs ys : List String) (cur : TextSection)
    (h : ∀ l ∈ xs, lineMarker l = none) :
    scanLines (xs ++ ys) cur = addToSection cur xs (scanLines ys cur) := by
  induction xs with
  | nil => cases cur <;> rfl
  | cons x xs ih =>
    have hx : lineMarker x = none := h x (by simp)
    have hxs : ∀ l ∈ xs, lineMarker l = none := fun l hl => h l (by simp [hl])
    cases cur <;> simp [scanLines, hx, ih hxs, addToSection]

theorem scanLines_marker (line : String) (rest : List String) (cur sec : TextSection)
    (h : lineMarker line = some sec) :
    scanLines (line :: rest) cur = scanLines rest sec := by
  simp [scanLines, h]

theorem scanLines_nomarker (ls : List String) (cur : TextSection)
    (h : ∀ l ∈ ls, lineMarker l = none) :
    scanLines ls cur = addToSection cur ls ([], [], []) := by
  simpa using scanLines_append_nomarker ls [] cur h

/-- C3: when the classifier's line split of the body text consists of
non-marker lines, then a localized input marker, then non-marker lines, then
a localized output marker, then non-marker lines, the classifier returns
exactly the lines after the input marker as input-format, exactly the lines
after the output marker as output-format, and the lines before the input
marker as legend; both marker lines are consumed and appear in no section's
output. -/
theorem C3_marker_split (pre mid post : List String) (im om : String) (text : String)
    (hpre : ∀ l ∈ pre, lineMarker l = none)
    (hmid : ∀ l ∈ mid, lineMarker l = none)
    (hpost : ∀ l ∈ post, lineMarker l = none)
    (him : lineMarker im = some TextSection.input)
    (hom : lineMarker om = some TextSection.output)
    (hsplit : textLines text = pre ++ im :: (mid ++ om :: post))
    (hmid2 : mid ≠ []) (hpost2 : post ≠ []) :
    extract_text_sections text
      = (pyJoin "\n\n" pre, pyJoin "\n" mid, pyJoin "\n" post) := by
  have hscan : scanLines (textLines text) TextSection.legend = (pre, mid, post) := by
    rw [hsplit, scanLines_append_nomarker _ _ _ hpre,
        scanLines_marker _ _ _ _ him,
        scanLines_append_nomarker _ _ _ hmid,
        scanLines_marker _ _ _ _ hom,
        scanLines_nomarker _ _ hpost]
    simp [addToSection]
  rcases mid with _ | ⟨m, ms⟩
  · exact absurd rfl hmid2
  rcases post with _ | ⟨p, ps⟩
  · exact absurd rfl hpost2
  simp [extract_text_sections, hscan]

/-- A concrete task body for the C3 witness. -/
def c3Text : String := "Compute a plus b.\nInput data\n1 line\nOutput data\n2 lines"

theorem C3_witness :
    extract_text_sections c3Text = ("Compute a plus b.", "1 line", "2 lines") :=
  C3_marker_split ["Compute a plus b."] ["1 line"] ["2 lines"] "Input data" "Output data"
    c3Text (by decide) (by decide) (by decide) (by decide) (by decide) (by decide)
    (by decide) (by decide)

theorem scanLines_no_input (ls : List String) :
    ∀ cur : TextSection, cur ≠ TextSection.input →
      (∀ l ∈ ls, lineMarker l ≠ some TextSection.input) →
      (scanLines ls cur).2.1 = [] := by
  induction ls with
  | nil => intro cur _ _; rfl
  | cons x xs ih =>
    intro cur hcur h
    have hx := h x (by simp)
    have hxs : ∀ l ∈ xs, lineMarker l ≠ some TextSection.input :=
      fun l hl => h l (by simp [hl])
    rcases hm : lineMarker x with _ | sec
    · cases cur with
      | legend => simpa [scanLines, hm] using ih TextSection.legend hcur hxs
      | input => exact absurd rfl hcur
      | output => simpa [scanLines, hm] using ih TextSection.output hcur hxs
    · have hsec : sec ≠ TextSection.input := by
        intro he; rw [he] at hm; exact hx hm
      simpa [scanLines, hm] using ih sec hsec hxs

theorem scanLines_no_output (ls : List String) :
    ∀ cur : TextSection, cur ≠ TextSection.output →
      (∀ l ∈ ls, lineMarker l ≠ some TextSection.output) →
      (scanLines ls cur).2.2 = [] := by
  induction ls with
  | nil => intro cur _ _; rfl
  | cons x xs ih =>
    intro cur hcur h
    have hx := h x (by simp)
    have hxs : ∀ l ∈ xs, lineMarker l ≠ some TextSection.output :=
      fun l hl => h l (by simp [hl])
    rcases hm : lineMarker x with _ | sec
    · cases cur with
      | legend => simpa [scanLines, hm] using ih TextSection.legend hcur hxs
      | output => exact absurd rfl hcur
      | input => simpa [scanLines, hm] using ih TextSection.input hcur hxs
    · have hsec : sec ≠ TextSection.output := by
        intro he; rw [he] at hm; exact hx hm
      simpa [scanLines, hm] using ih sec hsec hxs

/-- C7: the legend output is always the legend buffer's lines joined with
blank-line separators, and when the input (resp. output) section is never
seen during the scan the classifier returns the fixed localized placeholder
`Входные данные отсутствуют` (resp. `Выходные данные отсутствуют`), meaning
"no such data", rather than an empty string. -/
theorem C7_legend_join_placeholders (text : String) :
    (extract_text_sections text).1
      = pyJoin "\n\n" (scanLines (textLines text) TextSection.legend).1
    ∧ ((∀ l ∈ textLines text, lineMarker l ≠ some TextSection.input) →
        (extract_text_sections text).2.1 = "Входные данные отсутствуют")
    ∧ ((∀ l ∈ textLines text, lineMarker l ≠ some TextSection.output) →
        (extract_text_sections text).2.2 = "Выходные данные отсутствуют") := by
  refine ⟨rfl, ?_, ?_⟩
  · intro h
    have h0 := scanLines_no_input (textLines text) TextSection.legend (by decide) h
    simp [extract_text_sections, h0]
  · intro h
    have h0 := scanLines_no_output (textLines text) TextSection.legend (by decide) h
    simp [extract_text_sections, h0]

theorem C7_witness :
    (extract_text_sections "hello").2.1 = "Входные данные отсутствуют"
    ∧ (extract_text_sections "hello").2.2 = "Выходные данные отсутствуют" :=
  ⟨(C7_legend_join_placeholders "hello").2.1 (by decide),
   (C7_legend_join_placeholders "hello").2.2 (by decide)⟩

/-- Source: `_extract_first_word` (lines 203–208): drop leading whitespace,
then take the maximal run of non-whitespace characters (`split(None, 1)`
returns that run as its first element; an all-whitespace value yields ""). -/
def _extract_first_word (value : String) : String :=
  String.mk ((value.data.dropWhile pyWhitespaceChar).takeWhile (fun c => !pyWhitespaceChar c))

/-- ASCII decimal digit (the regex class `\d` over the data the tool
handles). -/
def isAsciiDigit (c : Char) : Bool :=
  '0' ≤ c && c ≤ '9'

/-- `re.fullmatch(r"[+-]?\d+", token)` on the character list: an optional
sign followed by one or more digits. -/
def intDigits : List Char → Bool
  | [] => false
  | c :: cs =>
    let body := if c = '+' || c = '-' then cs else c :: cs
    !body.isEmpty && body.all isAsciiDigit

/-- Source: `_is_integer_token` (lines 211–212). -/
def _is_integer_token (token : String) : Bool :=
  intDigits token.data

/-- Tail of a Python numeric digit run: digits with single underscores
allowed only between digits. -/
def digitTail : List Char → Bool
  | [] => true
  | '_' :: c :: rest => isAsciiDigit c && digitTail rest
  | c :: rest => isAsciiDigit c && digitTail rest

/-- A Python `digitpart`: at least one digit, underscores only between
digits. -/
def isDigitPart (l : List Char) : Bool :=
  match l with
  | [] => false
  | c :: rest => isAsciiDigit c && digitTail rest

/-- Split a character list at the first character satisfying `p`; the
second component is `none` when no such character occurs. -/
def splitAtFirst (p : Char → Bool) : List Char → List Char × Option (List Char)
  | [] => ([], none)
  | c :: cs =>
    if p c then ([], some cs)
    else
      let r := splitAtFirst p cs
      (c :: r.1, r.2)

/-- Drop one leading sign character. -/
def stripSign : List Char → List Char
  | '+' :: cs => cs
  | '-' :: cs => cs
  | l => l

/-- A Python float mantissa: `digitpart`, or `digitpart? "." digitpart?`
with at least one digit present. -/
def isMantissa (l : List Char) : Bool :=
  let r := splitAtFirst (fun c => c = '.') l
  match r.2 with
  | none => isDigitPart l
  | some frac =>
    (r.1.isEmpty || isDigitPart r.1) && (frac.isEmpty || isDigitPart frac) &&
    !(r.1.isEmpty && frac.isEmpty)

/-- Whether CPython's `float(token)` succeeds on a whitespace-free token:
an optional sign, then `inf` / `infinity` / `nan` (case-insensitive) or a
mantissa with an optional `e`/`E` exponent (sign and digitpart). -/
def pyFloatAccepts (l : List Char) : Bool :=
  let body := stripSign l
  let low := body.map lowerChar
  if low = "inf".data || low = "infinity".data || low = "nan".data then true
  else
    match (splitAtFirst (fun c => c = 'e' || c = 'E') body).2 with
    | none => isMantissa body
    | some ex =>
      isMantissa (splitAtFirst (fun c => c = 'e' || c = 'E') body).1 &&
      isDigitPart (stripSign ex)

/-- Source: `_is_float_token` (lines 215–222): false for the empty token and
for integer tokens; otherwise `float(token)` must succeed and the token must
contain both a digit and one of `.`, `e`, `E`. -/
def _is_float_token (token : String) : Bool :=
  if token.data.isEmpty || _is_integer_token token then false
  else if !pyFloatAccepts token.data then false
  else token.data.any isAsciiDigit && token.data.any (fun c => c = '.' || c = 'e' || c = 'E')

/-- Source: the dataclass `MoodleTask` (lines 57–64). -/
structure MoodleTask where
  name : String
  legend : String
  input_format : String
  output_format : String
  solution : String
  tests : List TestCase
deriving DecidableEq

/-- Source: `_select_checker` (lines 225–236): `std::lcmp.cpp` is the
line-comparison policy, `std::ncmp.cpp` the integer-comparison policy and
`std::rcmp9.cpp` the floating-point-tolerant policy. -/
def _select_checker (task : MoodleTask) : String :=
  match task.tests with
  | [] => "std::lcmp.cpp"
  | t :: _ =>
    let first_word := _extract_first_word t.output_data
    if first_word.data.isEmpty then "std::lcmp.cpp"
    else if _is_integer_token first_word then "std::ncmp.cpp"
    else if _is_float_token first_word then "std::rcmp9.cpp"
    else "std::lcmp.cpp"

/-- C4: the comparison-policy selector looks only at the first test's
expected output.  No tests, or an absent first whitespace-delimited token,
selects line comparison (`std::lcmp.cpp`); an optional-sign all-digit token
selects integer comparison (`std::ncmp.cpp`); otherwise a token accepted by
the floating-point parser that contains both a digit and one of `.`, `e`,
`E` (and is not a pure integer) selects the float-tolerant policy
(`std::rcmp9.cpp`); everything else selects line comparison. -/
theorem C4_select_checker (task : MoodleTask) :
    (task.tests = [] → _select_checker task = "std::lcmp.cpp")
    ∧ (∀ t rest, task.tests = t :: rest →
        ((_extract_first_word t.output_data = "" →
            _select_checker task = "std::lcmp.cpp")
        ∧ (_is_integer_token (_extract_first_word t.output_data) = true →
            _select_checker task = "std::ncmp.cpp")
        ∧ (_is_integer_token (_extract_first_word t.output_data) = false →
            pyFloatAccepts (_extract_first_word t.output_data).data = true →
            (_extract_first_word t.output_data).data.any isAsciiDigit = true →
            (_extract_first_word t.output_data).data.any
              (fun c => c = '.' || c = 'e' || c = 'E') = true →
            _select_checker task = "std::rcmp9.cpp")
        ∧ (_is_integer_token (_extract_first_word t.output_data) = false →
            _is_float_token (_extract_first_word t.output_data) = false →
            _select_checker task = "std::lcmp.cpp"))) := by
  constructor
  · intro h
    simp [_select_checker, h]
  · intro t rest h
    refine ⟨?_, ?_, ?_, ?_⟩
    · intro hw
      simp [_select_checker, h, hw]
    · intro hint
      have hne : ((_extract_first_word t.output_data).data).isEmpty = false := by
        rcases hd : (_extract_first_word t.output_data).data with _ | ⟨c, cs⟩
        · rw [_is_integer_token, hd] at hint
          exact absurd hint (by decide)
        · rfl
      simp [_select_checker, h, hne, hint]
    · intro hint hacc hdig hdot
      have hne : ((_extract_first_word t.output_data).data).isEmpty = false := by
        rcases hd : (_extract_first_word t.output_data).data with _ | ⟨c, cs⟩
        · rw [hd] at hdig
          exact absurd hdig (by decide)
        · rfl
      have hfloat : _is_float_token (_extract_first_word t.output_data) = true := by
        rw [_is_float_token, hne, hint]
        simp [hacc, hdig, hdot]
      simp [_select_checker, h, hne, hint, hfloat]
    · intro hint hfloat
      rcases hd : (_extract_first_word t.output_data).data with _ | ⟨c, cs⟩
      · simp [_select_checker, h, hd]
      · have hne : ((_extract_first_word t.output_data).data).isEmpty = false := by
          rw [hd]; rfl
        simp [_select_checker, h, hne, hint, hfloat]

/-- A task with a single test whose expected output is the given string. -/
def c4Task (out : String) : MoodleTask :=
  { name := "t", legend := "", input_format := "", output_format := ""
  , solution := ""
  , tests := [ { index := 1, input_data := "", output_data := out
               , use_in_statements := false } ] }

/-- A task with no tests at all. -/
def c4TaskNoTests : MoodleTask :=
  { name := "t", legend := "", input_format := "", output_format := ""
  , solution := "", tests := [] }

theorem C4_witness :
    _select_checker (c4Task "42 17") = "std::ncmp.cpp"
    ∧ _select_checker (c4Task "3.14 x") = "std::rcmp9.cpp"
    ∧ _select_checker (c4Task "hello world") = "std::lcmp.cpp"
    ∧ _select_checker c4TaskNoTests = "std::lcmp.cpp" := by
  refine ⟨?_, ?_, ?_, ?_⟩
  · exact ((C4_select_checker (c4Task "42 17")).2 _ _ rfl).2.1 (by decide)
  · exact ((C4_select_checker (c4Task "3.14 x")).2 _ _ rfl).2.2.1
      (by decide) (by decide) (by decide) (by decide)
  · exact ((C4_select_checker (c4Task "hello world")).2 _ _ rfl).2.2.2
      (by decide) (by decide)
  · exact (C4_select_checker c4TaskNoTests).1 rfl

/-- Worker for `re.sub(r"\s+", " ", ...)`: collapse each maximal whitespace
run into a single space; the Boolean records whether the previous character
was whitespace. -/
def collapseWsAux : List Char → Bool → List Char
  | [], _ => []
  | c :: cs, prevWs =>
    if pyWhitespaceChar c then
      if prevWs then collapseWsAux cs true else ' ' :: collapseWsAux cs true
    else c :: collapseWsAux cs false

/-- Source: `_normalize_whitespace` (lines 199–200):
`re.sub(r"\s+", " ", value.strip())`. -/
def _normalize_whitespace (value : String) : String :=
  String.mk (collapseWsAux (pyStripChars value.data) false)

/-- Python `legend.split("\n\n")` (line 243), specialised to its fixed
two-character separator: split at each non-overlapping occurrence of two
consecutive newlines, scanning left to right. -/
def splitParas : List Char → List Char → List (List Char)
  | [], acc => [acc.reverse]
  | '\n' :: '\n' :: cs, acc => acc.reverse :: splitParas cs []
  | c :: cs, acc => splitParas cs (c :: acc)

/-- Lines 253–254: drop leading sections that are blank after stripping. -/
def dropBlankSections : List String → List String
  | [] => []
  | s :: rest => if pyStrip s = "" then dropBlankSections rest else s :: rest

/-- Source: `_strip_redundant_title` (lines 239–255): when the legend's
first paragraph, whitespace-normalized and lowered, equals the similarly
normalized title, that paragraph (and any following blank paragraphs) is
dropped. -/
def _strip_redundant_title (legend : String) (title : String) : String :=
  if legend = "" then legend
  else
    match (splitParas legend.data []).map (fun l => String.mk l) with
    | [] => legend
    | first :: rest =>
      if pyLowerStr (_normalize_whitespace first)
          = pyLowerStr (_normalize_whitespace title) then
        pyJoin "\n\n" (dropBlankSections rest)
      else legend

/-- One `<question>` element as `parse_moodle_xml` observes it (lines
275–299): presence of the `name/text`, `questiontext/text` and `answer`
nodes (outer `Option`), their optional text payloads (inner `Option`), and
the raw test entries. -/
structure Question where
  qtype : String
  nameText : Option (Option String)
  questiontextText : Option (Option String)
  answerText : Option (Option String)
  testcases : List RawTestcase
deriving DecidableEq

/-- The task construction of lines 285–310 for one complete question. -/
def mkTask (nt qt ans : Option String) (testcases : List RawTestcase) : MoodleTask :=
  let sections := extract_text_sections (pyOr qt "")
  let name := pyStrip (pyOr nt "Unnamed task")
  { name := name
  , legend := _strip_redundant_title sections.1 name
  , input_format := sections.2.1
  , output_format := sections.2.2
  , solution := pyStrip (pyOr ans "")
  , tests := extractTests testcases }

/-- Source: the question loop of `parse_moodle_xml` (lines 265–310),
restricted to the produced task list (the category branch of lines 266–273
only affects the contest name).  The
`ValueError("Malformed question entry in Moodle export")` of line 283 is
modelled by the `Except.error` case. -/
def parseQuestions : List Question → Except String (List MoodleTask)
  | [] => Except.ok []
  | q :: qs =>
    if q.qtype = "coderunner" then
      match q.nameText, q.questiontextText, q.answerText with
      | some nt, some qt, some ans =>
        match parseQuestions qs with
        | Except.ok tasks => Except.ok (mkTask nt qt ans q.testcases :: tasks)
        | Except.error e => Except.error e
      | _, _, _ => Except.error "Malformed question entry in Moodle export"
    else parseQuestions qs

/-- C6: parsing fails with the ParseError exactly when some coderunner
entry lacks its name node, its body node or its reference-solution node;
for documents where every coderunner entry has all three, parsing succeeds
and the number of produced tasks equals the number of coderunner entries. -/
theorem C6_parse_errors (qs : List Question) :
    ((∃ tasks, parseQuestions qs = Except.ok tasks)
      ↔ ∀ q ∈ qs, q.qtype = "coderunner" →
          (q.nameText.isSome ∧ q.questiontextText.isSome ∧ q.answerText.isSome))
    ∧ (∀ tasks, parseQuestions qs = Except.ok tasks →
        tasks.length = (qs.filter (fun q => q.qtype == "coderunner")).length) := by
  induction qs with
  | nil =>
    refine ⟨⟨fun _ q hq => absurd hq (List.not_mem_nil q), fun _ => ⟨[], rfl⟩⟩, ?_⟩
    intro tasks h
    simp only [parseQuestions, Except.ok.injEq] at h
    rw [← h]
    rfl
  | cons q qs ih =>
    by_cases hq : q.qtype = "coderunner"
    · rcases hn : q.nameText with _ | nt
      · have hp : parseQuestions (q :: qs) =
            Except.error "Malformed question entry in Moodle export" := by
          simp [parseQuestions, hq, hn]
        constructor
        · constructor
          · intro ⟨tasks, htasks⟩
            rw [hp] at htasks
            cases htasks
          · intro hall
            have := (hall q (by simp) hq).1
            rw [hn] at this
            cases this
        · intro tasks htasks
          rw [hp] at htasks
          cases htasks
      · rcases hqt : q.questiontextText with _ | qt
        · have hp : parseQuestions (q :: qs) =
              Except.error "Malformed question entry in Moodle export" := by
            simp [parseQuestions, hq, hn, hqt]
          constructor
          · constructor
            · intro ⟨tasks, htasks⟩
              rw [hp] at htasks
              cases htasks
            · intro hall
              have := (hall q (by simp) hq).2.1
              rw [hqt] at this
              cases this
          · intro tasks htasks
            rw [hp] at htasks
            cases htasks
        · rcases hans : q.answerText with _ | ans
          · have hp : parseQuestions (q :: qs) =
                Except.error "Malformed question entry in Moodle export" := by
              simp [parseQuestions, hq, hn, hqt, hans]
            constructor
            · constructor
              · intro ⟨tasks, htasks⟩
                rw [hp] at htasks
                cases htasks
              · intro hall
                have := (hall q (by simp) hq).2.2
                rw [hans] at this
                cases this
            · intro tasks htasks
              rw [hp] at htasks
              cases htasks
          · cases hr : parseQuestions qs with
            | error e =>
              have hp : parseQuestions (q :: qs) = Except.error e := by
                simp [parseQuestions, hq, hn, hqt, hans, hr]
              constructor
              · constructor
                · intro ⟨tasks, htasks⟩
                  rw [hp] at htasks
                  cases htasks
                · intro hall
                  have hqs : ∀ p ∈ qs, p.qtype = "coderunner" →
                      (p.nameText.isSome ∧ p.questiontextText.isSome ∧
                        p.answerText.isSome) :=
                    fun p hp2 => hall p (by simp [hp2])
                  obtain ⟨tasks, htasks⟩ := ih.1.mpr hqs
                  rw [hr] at htasks
                  cases htasks
              · intro tasks htasks
                rw [hp] at htasks
                cases htasks
            | ok tasks0 =>
              have hp : parseQuestions (q :: qs)
                  = Except.ok (mkTask nt qt ans q.testcases :: tasks0) := by
                simp [parseQuestions, hq, hn, hqt, hans, hr]
              constructor
              · constructor
                · intro _ p hp2 hcr
                  rcases List.mem_cons.mp hp2 with he | hm
                  · rw [he, hn, hqt, hans]
                    exact ⟨rfl, rfl, rfl⟩
                  · exact ih.1.mp ⟨tasks0, hr⟩ p hm hcr
                · intro _
                  exact ⟨mkTask nt qt ans q.testcases :: tasks0, hp⟩
              · intro tasks htasks
                rw [hp] at htasks
                injection htasks with htasks
                rw [← htasks, List.filter_cons_of_pos (by simpa using hq)]
                simp only [List.length_cons]
                rw [ih.2 tasks0 hr]
    · have hp : parseQuestions (q :: qs) = parseQuestions qs := by
        simp [parseQuestions, hq]
      constructor
      · rw [hp]
        constructor
        · intro he p hp2 hcr
          rcases List.mem_cons.mp hp2 with he2 | hm
          · rw [he2] at hcr
            exact absurd hcr hq
          · exact ih.1.mp he p hm hcr
        · intro hall
          exact ih.1.mpr (fun p hm => hall p (by simp [hm]))
      · intro tasks htasks
        rw [hp] at htasks
        rw [List.filter_cons_of_neg (by simpa using hq)]
        exact ih.2 tasks htasks

/-- A complete coderunner entry. -/
def c6Question : Question :=
  { qtype := "coderunner", nameText := some (some "Sum")
  , questiontextText := some (some "Compute."), answerText := some (some "ans")
  , testcases := [] }

theorem C6_witness :
    ∃ tasks, parseQuestions [c6Question] = Except.ok tasks ∧ tasks.length = 1 := by
  obtain ⟨tasks, h⟩ := (C6_parse_errors [c6Question]).1.mpr (by decide)
  exact ⟨tasks, h, ((C6_parse_errors [c6Question]).2 tasks h).trans (by decide)⟩

/-- C10: a coderunner entry whose name node is present but carries no text
does not raise: it produces a task whose name is the fallback string
`Unnamed task`; the ParseError path is reserved for entries whose name,
body or answer node is entirely absent. -/
theorem C10_unnamed_fallback (q : Question) (qs : List Question)
    (tasks : List MoodleTask)
    (hq : q.qtype = "coderunner") (hname : q.nameText = some none)
    (hqt : q.questiontextText.isSome = true) (hans : q.answerText.isSome = true)
    (hrest : parseQuestions qs = Except.ok tasks) :
    ∃ task, parseQuestions (q :: qs) = Except.ok (task :: tasks)
      ∧ task.name = "Unnamed task" := by
  obtain ⟨qt, hqt2⟩ := Option.isSome_iff_exists.mp hqt
  obtain ⟨ans, hans2⟩ := Option.isSome_iff_exists.mp hans
  refine ⟨mkTask none qt ans q.testcases, ?_, ?_⟩
  · simp [parseQuestions, hq, hname, hqt2, hans2, hrest]
  · show pyStrip (pyOr none "Unnamed task") = "Unnamed task"
    decide

/-- A coderunner entry whose name node exists but has no text payload. -/
def c10Question : Question :=
  { qtype := "coderunner", nameText := some none
  , questiontextText := some (some "body"), answerText := some (some "ans")
  , testcases := [] }

theorem C10_witness :
    ∃ task, parseQuestions [c10Question] = Except.ok [task]
      ∧ task.name = "Unnamed task" := by
  obtain ⟨task, h1, h2⟩ :=
    C10_unnamed_fallback c10Question [] [] rfl rfl (by decide) (by decide) rfl
  exact ⟨task, h1, h2⟩

/-- Source: the `problem.saveStatement` parameter dictionary of lines
349–359 of `create_polygon_problem`, in insertion order; the legend entry
is `task.legend or task.name`. -/
def saveStatementParams (problemId : Int) (task : MoodleTask) :
    List (String × ParamValue) :=
  [ ("problemId", ParamValue.pint problemId)
  , ("lang", ParamValue.pstr "russian")
  , ("name", ParamValue.pstr task.name)
  , ("legend", ParamValue.pstr (pyOrStr task.legend task.name))
  , ("input", ParamValue.pstr task.input_format)
  , ("output", ParamValue.pstr task.output_format) ]

/-- C9: the statement-saving call sends the task name as the legend when
the classified legend is empty, and sends a non-empty legend unchanged. -/
theorem C9_legend_fallback (problemId : Int) (task : MoodleTask) :
    (task.legend = "" →
      (saveStatementParams problemId task).lookup "legend"
        = some (ParamValue.pstr task.name))
    ∧ (task.legend ≠ "" →
      (saveStatementParams problemId task).lookup "legend"
        = some (ParamValue.pstr task.legend)) := by
  constructor
  · intro h
    simp [saveStatementParams, List.lookup, pyOrStr, h]
  · intro h
    simp [saveStatementParams, List.lookup, pyOrStr, h]

/-- A task whose classified legend is empty. -/
def c9TaskEmpty : MoodleTask :=
  { name := "T", legend := "", input_format := "", output_format := ""
  , solution := "", tests := [] }

/-- A task with a non-empty legend. -/
def c9TaskFull : MoodleTask :=
  { name := "T", legend := "L", input_format := "", output_format := ""
  , solution := "", tests := [] }

theorem C9_witness :
    (saveStatementParams 7 c9TaskEmpty).lookup "legend"
      = some (ParamValue.pstr "T")
    ∧ (saveStatementParams 7 c9TaskFull).lookup "legend"
      = some (ParamValue.pstr "L") :=
  ⟨(C9_legend_fallback 7 c9TaskEmpty).1 rfl,
   (C9_legend_fallback 7 c9TaskFull).2 (by decide)⟩

/-- One entry of the `problem.packages` response as `wait_for_package`
reads it: `pkg.get("creationTimeSeconds", 0)` and `pkg.get("state")`. -/
structure BuildPackage where
  creationTimeSeconds : Option Nat
  state : Option String
deriving DecidableEq

/-- Source: `max(packages, key=lambda pkg: pkg.get("creationTimeSeconds", 0))`
(line 412); Python `max` keeps the earlier item among ties, i.e. replaces
the running maximum only on a strictly larger key. -/
def latestPackage (p : BuildPackage) (ps : List BuildPackage) : BuildPackage :=
  ps.foldl
    (fun best q =>
      if best.creationTimeSeconds.getD 0 < q.creationTimeSeconds.getD 0 then q
      else best) p

/-- The error message of line 417. -/
def failedMessage (problemId : Int) : String :=
  "Package build failed for problem " ++ toString problemId

/-- The error message of line 419. -/
def timeoutMessage (problemId : Int) : String :=
  "Timeout while waiting for package build for problem " ++ toString problemId

/-- Source: the polling loop of `wait_for_package` (lines 405–419) with the
clock made explicit.  `responses k` is the reply to the k-th
`problem.packages` request; every iteration ends in `time.sleep(2)` and
requests are instantaneous in this model, so the `_now() < deadline` guard
succeeds for exactly as many iterations as the fuel computed below; fuel 0
is the expired deadline. -/
def waitIter (responses : Nat → List BuildPackage) (problemId : Int) :
    Nat → Nat → Except String Unit
  | 0, _ => Except.error (timeoutMessage problemId)
  | fuel + 1, k =>
    match responses k with
    | [] => waitIter responses problemId fuel (k + 1)
    | p :: ps =>
      if (latestPackage p ps).state = some "READY" then Except.ok ()
      else if (latestPackage p ps).state = some "FAILED" then
        Except.error (failedMessage problemId)
      else waitIter responses problemId fuel (k + 1)

/-- The number of loop iterations whose `now < deadline` guard holds when
the loop starts `timeout` seconds before the deadline and each iteration
advances the clock by the 2-second sleep: iteration k runs iff
`2 * k < timeout`. -/
def pollCount (timeout : Nat) : Nat :=
  (timeout + 1) / 2

/-- Source: `wait_for_package` (lines 405–419); its default 300-second
deadline yields 150 polls spaced 2 seconds apart. -/
def wait_for_package (responses : Nat → List BuildPackage) (problemId : Int)
    (timeout : Nat) : Except String Unit :=
  waitIter responses problemId (pollCount timeout) 0

theorem latestPackage_mem_max (p : BuildPackage) (ps : List BuildPackage) :
    latestPackage p ps ∈ p :: ps
    ∧ ∀ q ∈ p :: ps,
        q.creationTimeSeconds.getD 0
          ≤ (latestPackage p ps).creationTimeSeconds.getD 0 := by
  induction ps generalizing p with
  | nil =>
    refine ⟨by simp [latestPackage], ?_⟩
    intro q hq
    rcases List.mem_cons.mp hq with he | hm
    · rw [he]
      simp [latestPackage]
    · exact absurd hm (List.not_mem_nil q)
  | cons r rs ih =>
    by_cases hlt : p.creationTimeSeconds.getD 0 < r.creationTimeSeconds.getD 0
    · have hfold : latestPackage p (r :: rs) = latestPackage r rs := by
        simp [latestPackage, hlt]
      obtain ⟨hmem, hbd⟩ := ih r
      refine ⟨?_, ?_⟩
      · rw [hfold]
        exact List.mem_cons_of_mem p hmem
      · intro q hq
        rw [hfold]
        rcases List.mem_cons.mp hq with he | hm
        · have h1 := hbd r (List.mem_cons_self r rs)
          rw [he]
          omega
        · exact hbd q hm
    · have hfold : latestPackage p (r :: rs) = latestPackage p rs := by
        simp [latestPackage, hlt]
      obtain ⟨hmem, hbd⟩ := ih p
      refine ⟨?_, ?_⟩
      · rw [hfold]
        rcases List.mem_cons.mp hmem with he | hm
        · rw [he]
          exact List.mem_cons_self p (r :: rs)
        · exact List.mem_cons_of_mem p (List.mem_cons_of_mem r hm)
      · intro q hq
        rw [hfold]
        rcases List.mem_cons.mp hq with he | hm
        · exact he ▸ hbd p (List.mem_cons_self p rs)
        · rcases List.mem_cons.mp hm with he2 | hm2
          · have h1 := hbd p (List.mem_cons_self p rs)
            have h2 := Nat.le_of_not_lt hlt
            rw [he2]
            omega
          · exact hbd q (List.mem_cons_of_mem p hm2)

/-- C5: the build wait polls the package list in 2-second steps under the
300-second deadline — exactly 150 polls; with no fuel left it fails with
the timeout APIError naming the problem; an empty package list just keeps
waiting; otherwise it inspects the state of the most recently created
package (the fold really picks a package of maximal creation time):
`READY` succeeds immediately, `FAILED` fails immediately with an APIError
naming the problem, and any other state polls again. -/
theorem C5_wait_polling (responses : Nat → List BuildPackage) (problemId : Int)
    (fuel k : Nat) (p : BuildPackage) (ps : List BuildPackage) :
    wait_for_package responses problemId 300 = waitIter responses problemId 150 0
    ∧ waitIter responses problemId 0 k = Except.error (timeoutMessage problemId)
    ∧ (responses k = [] →
        waitIter responses problemId (fuel + 1) k
          = waitIter responses problemId fuel (k + 1))
    ∧ (responses k = p :: ps →
        (((latestPackage p ps).state = some "READY" →
            waitIter responses problemId (fuel + 1) k = Except.ok ())
        ∧ ((latestPackage p ps).state = some "FAILED" →
            waitIter responses problemId (fuel + 1) k
              = Except.error (failedMessage problemId))
        ∧ ((latestPackage p ps).state ≠ some "READY" →
            (latestPackage p ps).state ≠ some "FAILED" →
            waitIter responses problemId (fuel + 1) k
              = waitIter responses problemId fuel (k + 1))))
    ∧ latestPackage p ps ∈ p :: ps
    ∧ (∀ q ∈ p :: ps,
        q.creationTimeSeconds.getD 0
          ≤ (latestPackage p ps).creationTimeSeconds.getD 0) := by
  refine ⟨rfl, rfl, ?_, ?_, (latestPackage_mem_max p ps).1,
    (latestPackage_mem_max p ps).2⟩
  · intro h
    simp [waitIter, h]
  · intro hr
    refine ⟨?_, ?_, ?_⟩
    · intro hs
      simp [waitIter, hr, hs]
    · intro hs
      simp [waitIter, hr, hs]
    · intro h1 h2
      simp only [waitIter, hr]
      rw [if_neg h1, if_neg h2]

/-- Responses that never contain a package. -/
def emptyResponses : Nat → List BuildPackage := fun _ => []

/-- Responses whose package list holds one READY package. -/
def readyResponses : Nat → List BuildPackage :=
  fun _ => [ { creationTimeSeconds := some 3, state := some "READY" } ]

theorem C5_witness :
    waitIter emptyResponses 5 1 0 = waitIter emptyResponses 5 0 1
    ∧ waitIter emptyResponses 5 0 1 = Except.error (timeoutMessage 5)
    ∧ waitIter readyResponses 5 1 0 = Except.ok () := by
  refine ⟨?_, ?_, ?_⟩
  · exact (C5_wait_polling emptyResponses 5 0 0
      { creationTimeSeconds := none, state := none } []).2.2.1 rfl
  · exact (C5_wait_polling emptyResponses 5 0 1
      { creationTimeSeconds := none, state := none } []).2.1
  · exact ((C5_wait_polling readyResponses 5 0 0
      { creationTimeSeconds := some 3, state := some "READY" } []).2.2.2.1 rfl).1 rfl

theorem splitlinesAux_no_boundary (cs : List Char) :
    ∀ (sawCR : Bool) (acc : List Char),
      acc.all (fun c => !lineBoundary c) = true →
      ∀ l ∈ splitlinesAux cs sawCR acc, l.all (fun c => !lineBoundary c) = true := by
  induction cs with
  | nil =>
    intro sawCR acc hacc l hl
    simp only [splitlinesAux] at hl
    by_cases he : acc.isEmpty
    · rw [if_pos he] at hl
      cases hl
    · rw [if_neg he] at hl
      rw [List.mem_singleton.mp hl, List.all_reverse]
      exact hacc
  | cons c cs ih =>
    intro sawCR acc hacc l hl
    simp only [splitlinesAux] at hl
    by_cases h1 : (sawCR && c = '\n') = true
    · rw [if_pos h1] at hl
      exact ih false acc hacc l hl
    · rw [if_neg h1] at hl
      by_cases h2 : c = '\r'
      · rw [if_pos h2] at hl
        rcases List.mem_cons.mp hl with he | hm
        · rw [he, List.all_reverse]
          exact hacc
        · exact ih true [] rfl l hm
      · rw [if_neg h2] at hl
        by_cases h3 : lineBoundary c = true
        · rw [if_pos h3] at hl
          rcases List.mem_cons.mp hl with he | hm
          · rw [he, List.all_reverse]
            exact hacc
          · exact ih false [] rfl l hm
        · rw [if_neg h3] at hl
          refine ih false (c :: acc) ?_ l hl
          rw [List.all_cons, hacc, Bool.eq_false_iff.mpr h3]
          rfl

theorem all_pyStripChars (p : Char → Bool) (l : List Char) (h : l.all p = true) :
    (pyStripChars l).all p = true := by
  rw [List.all_eq_true] at h ⊢
  intro x hx
  apply h
  simp only [pyStripChars, List.mem_reverse] at hx
  have h1 := List.Sublist.mem hx (List.dropWhile_sublist pyWhitespaceChar)
  rw [List.mem_reverse] at h1
  exact List.Sublist.mem h1 (List.dropWhile_sublist pyWhitespaceChar)

theorem dropWhile_dropWhile (p : Char → Bool) (l : List Char) :
    (l.dropWhile p).dropWhile p = l.dropWhile p := by
  induction l with
  | nil => rfl
  | cons c cs ih =>
    by_cases h : p c = true
    · rw [List.dropWhile_cons, if_pos h, ih]
    · rw [List.dropWhile_cons, if_neg h, List.dropWhile_cons, if_neg h]

theorem dropWhile_head_false (p : Char → Bool) (l : List Char) (c : Char)
    (cs : List Char) (h : l.dropWhile p = c :: cs) : p c = false := by
  induction l with
  | nil => cases h
  | cons a l ih =>
    by_cases ha : p a = true
    · rw [List.dropWhile_cons, if_pos ha] at h
      exact ih h
    · rw [List.dropWhile_cons, if_neg ha] at h
      injection h with h1 h2
      rw [← h1]
      exact Bool.eq_false_iff.mpr ha

theorem dropWhile_suffix_exists (p : Char → Bool) (l : List Char) :
    ∃ t, t ++ l.dropWhile p = l := by
  induction l with
  | nil => exact ⟨[], rfl⟩
  | cons c cs ih =>
    by_cases h : p c = true
    · obtain ⟨t, ht⟩ := ih
      refine ⟨c :: t, ?_⟩
      rw [List.dropWhile_cons, if_pos h, List.cons_append, ht]
    · refine ⟨[], ?_⟩
      rw [List.dropWhile_cons, if_neg h, List.nil_append]

theorem pyStripChars_dropWhile (l : List Char) :
    (pyStripChars l).dropWhile pyWhitespaceChar = pyStripChars l := by
  obtain ⟨t, ht⟩ :=
    dropWhile_suffix_exists pyWhitespaceChar (l.dropWhile pyWhitespaceChar).reverse
  have hA : l.dropWhile pyWhitespaceChar = pyStripChars l ++ t.reverse := by
    have h2 := congrArg List.reverse ht
    rw [List.reverse_append, List.reverse_reverse] at h2
    rw [← h2]
    rfl
  rcases hs : pyStripChars l with _ | ⟨c, s2⟩
  · rfl
  · rw [hs] at hA
    have hc : pyWhitespaceChar c = false :=
      dropWhile_head_false pyWhitespaceChar l c (s2 ++ t.reverse)
        (by rw [hA, List.cons_append])
    rw [List.dropWhile_cons, if_neg (by rw [hc]; exact Bool.false_ne_true)]

theorem pyStripChars_idem (l : List Char) :
    pyStripChars (pyStripChars l) = pyStripChars l := by
  conv_lhs => rw [pyStripChars]
  rw [pyStripChars_dropWhile]
  rw [show (pyStripChars l).reverse
      = (l.dropWhile pyWhitespaceChar).reverse.dropWhile pyWhitespaceChar from by
    rw [pyStripChars, List.reverse_reverse]]
  rw [dropWhile_dropWhile]
  rfl

theorem splitlinesAux_append (xs : List Char) :
    ∀ (cs acc : List Char), xs.all (fun c => !lineBoundary c) = true →
      splitlinesAux (xs ++ cs) false acc
        = splitlinesAux cs false (xs.reverse ++ acc) := by
  induction xs with
  | nil => intro cs acc _; rfl
  | cons x xs ih =>
    intro cs acc hall
    rw [List.all_cons, Bool.and_eq_true] at hall
    have hx : lineBoundary x = false := by
      have := hall.1
      rwa [Bool.not_eq_true'] at this
    have hxr : x ≠ '\r' := by
      intro he
      rw [he] at hx
      exact absurd hx (by decide)
    rw [List.cons_append]
    simp only [splitlinesAux, Bool.false_and, Bool.false_eq_true, if_false]
    rw [if_neg (by simpa using hxr), if_neg (by rw [hx]; exact Bool.false_ne_true)]
    rw [ih cs (x :: acc) hall.2]
    rw [List.reverse_cons, List.append_assoc, List.singleton_append]

theorem splitlinesAux_nb (cs : List Char) :
    ∀ acc, cs.all (fun c => !lineBoundary c) = true →
      acc.reverse ++ cs ≠ [] →
      splitlinesAux cs false acc = [acc.reverse ++ cs] := by
  induction cs with
  | nil =>
    intro acc _ hne
    rcases ha : acc with _ | ⟨a, as⟩
    · rw [ha] at hne
      exact absurd rfl hne
    · simp [splitlinesAux]
  | cons c cs ih =>
    intro acc hall hne
    rw [List.all_cons, Bool.and_eq_true] at hall
    have hx : lineBoundary c = false := by
      have := hall.1
      rwa [Bool.not_eq_true'] at this
    have hxr : c ≠ '\r' := by
      intro he
      rw [he] at hx
      exact absurd hx (by decide)
    simp only [splitlinesAux, Bool.false_and, Bool.false_eq_true, if_false]
    rw [if_neg (by simpa using hxr), if_neg (by rw [hx]; exact Bool.false_ne_true)]
    rw [ih (c :: acc) hall.2 (by simp)]
    rw [List.reverse_cons, List.append_assoc, List.singleton_append]

/-- The invariant of the classifier's line lists: each line is non-empty,
already stripped, and free of line-boundary characters. -/
def goodLine (l : String) : Prop :=
  l ≠ "" ∧ pyStrip l = l ∧ l.data.all (fun c => !lineBoundary c) = true

theorem textLines_good (text l : String) (h : l ∈ textLines text) : goodLine l := by
  simp only [textLines, List.mem_filter] at h
  obtain ⟨hmem, hne⟩ := h
  obtain ⟨l0, hl0, hl0e⟩ := List.mem_map.mp hmem
  simp only [pySplitlines] at hl0
  obtain ⟨l1, hl1, hl1e⟩ := List.mem_map.mp hl0
  have hb1 : l1.all (fun c => !lineBoundary c) = true :=
    splitlinesAux_no_boundary text.data false [] rfl l1 hl1
  refine ⟨by simpa using hne, ?_, ?_⟩
  · rw [← hl0e, ← hl1e]
    show String.mk (pyStripChars (pyStripChars l1)) = String.mk (pyStripChars l1)
    rw [pyStripChars_idem]
  · rw [← hl0e, ← hl1e]
    show (pyStripChars l1).all (fun c => !lineBoundary c) = true
    exact all_pyStripChars _ _ hb1

theorem scanLines_sub (ls : List String) :
    ∀ (cur : TextSection) (l : String), l ∈ (scanLines ls cur).1 → l ∈ ls := by
  induction ls with
  | nil =>
    intro cur l hl
    simp [scanLines] at hl
  | cons x xs ih =>
    intro cur l hl
    rcases hm : lineMarker x with _ | sec
    · cases cur with
      | legend =>
        simp only [scanLines, hm] at hl
        rcases List.mem_cons.mp hl with he | hm2
        · rw [he]
          exact List.mem_cons_self x xs
        · exact List.mem_cons_of_mem x (ih TextSection.legend l hm2)
      | input =>
        simp only [scanLines, hm] at hl
        exact List.mem_cons_of_mem x (ih TextSection.input l hl)
      | output =>
        simp only [scanLines, hm] at hl
        exact List.mem_cons_of_mem x (ih TextSection.output l hl)
    · simp only [scanLines, hm] at hl
      exact List.mem_cons_of_mem x (ih sec l hl)

theorem textLines_join (ls : List String) :
    (∀ l ∈ ls, goodLine l) → textLines (pyJoin "\n\n" ls) = ls := by
  induction ls with
  | nil => intro _; rfl
  | cons x xs ih =>
    intro h
    rcases xs with _ | ⟨y, ys⟩
    · obtain ⟨hne, hstr, hnb⟩ := h x (List.mem_singleton.mpr rfl)
      have hxd : x.data ≠ [] := fun hd => hne (congrArg String.mk hd)
      have hs : splitlinesAux x.data false [] = [x.data] := by
        have h2 := splitlinesAux_nb x.data [] hnb (by simpa using hxd)
        simpa using h2
      show textLines x = [x]
      simp only [textLines, pySplitlines, hs, List.map_cons, List.map_nil]
      rw [show pyStrip (String.mk x.data) = x from hstr]
      rw [List.filter_cons_of_pos (by simpa using hne)]
      rfl
    · obtain ⟨hne, hstr, hnb⟩ := h x (by simp)
      have hxs : ∀ l ∈ y :: ys, goodLine l := fun l hl => h l (by simp [hl])
      have hstep : ∀ (rest acc : List Char),
          splitlinesAux ('\n' :: '\n' :: rest) false acc
            = acc.reverse :: [] :: splitlinesAux rest false [] :=
        fun rest acc => rfl
      have hdata : (x ++ "\n\n" ++ pyJoin "\n\n" (y :: ys)).data
          = x.data ++ ('\n' :: '\n' :: (pyJoin "\n\n" (y :: ys)).data) := by
        rw [String.data_append, String.data_append, List.append_assoc]
        rfl
      have hsplitaux :
          splitlinesAux (x ++ "\n\n" ++ pyJoin "\n\n" (y :: ys)).data false []
            = x.data :: [] :: splitlinesAux (pyJoin "\n\n" (y :: ys)).data false [] := by
        rw [hdata, splitlinesAux_append x.data _ [] hnb, hstep]
        rw [List.append_nil, List.reverse_reverse]
      show ((pySplitlines (pyJoin "\n\n" (x :: y :: ys))).map pyStrip).filter
          (fun l => l != "") = x :: y :: ys
      rw [show pyJoin "\n\n" (x :: y :: ys) = x ++ "\n\n" ++ pyJoin "\n\n" (y :: ys)
        from rfl]
      simp only [pySplitlines, hsplitaux, List.map_cons]
      rw [show pyStrip (String.mk x.data) = x from hstr]
      rw [show pyStrip (String.mk []) = "" from rfl]
      rw [List.filter_cons_of_pos (by simpa using hne),
          List.filter_cons_of_neg (by simp)]
      exact congrArg (fun t => x :: t) (ih hxs)

/-- C8 is false as stated: the classifier joins legend lines with blank-line
separators, which `_normalize_whitespace` collapses to single spaces; on the
two-line body `a\nb` the produced legend is `a\n\nb` but its whitespace
normalization is `a b`. -/
theorem C8_counterexample :
    _normalize_whitespace (extract_text_sections "a\nb").1
      ≠ (extract_text_sections "a\nb").1 := by decide

/-- The classifier's own line-level whitespace normalization: split into
lines, strip each, drop the empties (lines 164–165 of the source) and
reassemble paragraphs the way the legend is assembled (line 193). -/
def renormalizeLines (s : String) : String :=
  pyJoin "\n\n" (textLines s)

/-- C8 (amended): the classifier's legend output is a fixed point of the
classifier's own line normalization: re-splitting the produced legend into
stripped non-empty lines and rejoining them with blank-line separators
changes nothing.  (The legend is not in general a fixed point of
`_normalize_whitespace`, which collapses the blank-line paragraph
separators; see the counterexample.) -/
theorem C8_renormalize_legend (text : String) :
    renormalizeLines (extract_text_sections text).1
      = (extract_text_sections text).1 := by
  have hgood : ∀ l ∈ (scanLines (textLines text) TextSection.legend).1, goodLine l :=
    fun l hl =>
      textLines_good text l (scanLines_sub (textLines text) TextSection.legend l hl)
  show pyJoin "\n\n"
      (textLines (pyJoin "\n\n" (scanLines (textLines text) TextSection.legend).1))
    = pyJoin "\n\n" (scanLines (textLines text) TextSection.legend).1
  rw [textLines_join _ hgood]
